import Mathlib

/-!
Verification development for `gitguard-prepare.py`, a git commit-message
preparation hook.  The Python source is embedded shallowly: Python strings
become Lean `String` (a wrapper around `List Char`), Python string
operations (`in`, `split`, `startswith`, `strip`, `lower`, `join`) are
implemented below over the underlying character lists, Python sets of
change-type labels become insertion-ordered duplicate-free lists (the only
facts used about them are membership and exact contents), `dict` grouping
with insertion order becomes an association list, and the external
collaborators (git queries, the AI completion call, terminal input) become
explicit parameters.
-/

namespace GitGuard

/-! ## Python string primitives over `List Char` -/

/-- `listIsPre p l` is Python `l.startswith(p)` at the character-list level. -/
def listIsPre : List Char → List Char → Bool
  | [], _ => true
  | _ :: _, [] => false
  | a :: as, b :: bs => a = b && listIsPre as bs

/-- `listContainsSub p l` is Python `p in l` (contiguous substring test). -/
def listContainsSub (p : List Char) : List Char → Bool
  | [] => listIsPre p []
  | a :: rest => listIsPre p (a :: rest) || listContainsSub p rest

/-- Python `s.split(c)` on a single-character separator. -/
def listSplitOnChar (c : Char) : List Char → List (List Char)
  | [] => [[]]
  | a :: rest =>
    if a = c then [] :: listSplitOnChar c rest
    else
      match listSplitOnChar c rest with
      | [] => [[a]]
      | h :: t => (a :: h) :: t

/-- Python `s.split(c, 1)`: split at the first occurrence of `c`; `none`
when `c` does not occur. -/
def listSplitFirst (c : Char) : List Char → Option (List Char × List Char)
  | [] => none
  | a :: rest =>
    if a = c then some ([], rest)
    else
      match listSplitFirst c rest with
      | none => none
      | some (l, r) => some (a :: l, r)

/-- The whitespace characters relevant to the paths and inputs handled by
the hook (Python `str.strip` with no argument strips these, among others). -/
def isSpaceChar (c : Char) : Bool :=
  c = ' ' || c = '\t' || c = '\n' || c = '\r'

/-- Python `s.strip()`. -/
def listStrip (l : List Char) : List Char :=
  ((l.dropWhile isSpaceChar).reverse.dropWhile isSpaceChar).reverse

/-! ## `String`-level wrappers -/

/-- Python `pat in s`. -/
def pyContains (s pat : String) : Bool := listContainsSub pat.data s.data

/-- Python `s.startswith(pre)`. -/
def pyStartsWith (s pre : String) : Bool := listIsPre pre.data s.data

/-- Python `s.lower()` (ASCII case folding, which covers the patterns the
source matches against). -/
def pyLower (s : String) : String := ⟨s.data.map Char.toLower⟩

/-- Python `s.strip()`. -/
def pyStrip (s : String) : String := ⟨listStrip s.data⟩

/-- Python `s.split(c)`. -/
def pySplit (s : String) (c : Char) : List String :=
  (listSplitOnChar c s.data).map (fun l => String.mk l)

/-- Python `sep.join(xs)`. -/
def pyJoin (sep : String) : List String → String
  | [] => ""
  | [x] => x
  | x :: y :: rest => x ++ sep ++ pyJoin sep (y :: rest)

/-- Python `pathlib.Path(file).name`: the final `/`-separated component
(staged git paths carry no trailing slash, so the plain split suffices). -/
def pathName (file : String) : String := (pySplit file '/').getLastD ""

/-! ## Data model -/

/-- One entry of the list returned by `get_changed_packages` (a Python dict
with keys `name`, `scope`, `files`, `types`).  The `types` set is modelled
as a duplicate-free list. -/
structure PackageInfo where
  name : String
  scope : String
  files : List String
  types : List String
deriving DecidableEq, Repr

/-- One AI suggestion record as parsed from the service's JSON response.
Each field is optional because the response is external data: `none`
models an absent key, so that the `KeyError` raised by a Python dict
subscript on a missing key is representable. -/
structure RawSuggestion where
  message : Option String
  explanation : Option String
  sugType : Option String
  scope : Option String
  description : Option String
deriving DecidableEq, Repr

/-! ## `detect_change_types` (source lines 78-100) -/

/-- Python `any(pattern in hay for pattern in pats)`. -/
def matchesAny (hay : String) (pats : List String) : Bool :=
  pats.any (fun p => pyContains hay p)

/-- The per-file branch body of `detect_change_types`: the `if`/`elif`
chain classifying one file, in source order (test, docs, style, chore,
fix); `none` when no category matches. -/
def classify_file (file : String) : Option String :=
  let file_lower := pyLower file
  let name := pyLower (pathName file)
  if matchesAny file_lower [".test.", ".spec.", "/tests/"] then some "test"
  else if matchesAny file_lower [".md", "readme", "docs/"] then some "docs"
  else if matchesAny file_lower [".css", ".scss", ".styled."] then some "style"
  else if matchesAny name ["package.json", ".config.", "tsconfig"] then some "chore"
  else if matchesAny file_lower ["fix", "bug", "patch"] then some "fix"
  else none

/-- `types.add(t)` on the insertion-ordered model of the Python set. -/
def addLabel (acc : List String) (t : String) : List String :=
  if t ∈ acc then acc else acc ++ [t]

/-- The loop of `detect_change_types` accumulating the `types` set. -/
def collectTypes (files : List String) : List String :=
  files.foldl
    (fun acc f =>
      match classify_file f with
      | some t => addLabel acc t
      | none => acc)
    []

/-- `detect_change_types(files)`: the collected labels, or `["feat"]` when
no file matched any category. -/
def detect_change_types (files : List String) : List String :=
  let types := collectTypes files
  if types = [] then ["feat"] else types

/-! ## `get_changed_packages` (source lines 112-153) -/

/-- The package key assigned to one changed file: `packages/<second path
component>` for files under `packages/`, else `root`.  The `none` case
mirrors the source's `if len(parts) > 1` guard, under which a file would
be silently dropped; it is unreachable because a string starting with
`packages/` always splits into at least two components. -/
def assignKey (file : String) : Option String :=
  if pyStartsWith file "packages/" then
    match pySplit file '/' with
    | _ :: p1 :: _ => some ("packages/" ++ p1)
    | _ => none
  else some "root"

/-- `packages[key].append(file)`, creating the key on first use; the
association list keeps the dict's insertion order. -/
def addToPkg : List (String × List String) → String → String → List (String × List String)
  | [], key, file => [(key, [file])]
  | (k, fs) :: rest, key, file =>
    if k = key then (k, fs ++ [file]) :: rest
    else (k, fs) :: addToPkg rest key file

/-- One iteration of the grouping loop of `get_changed_packages`. -/
def groupStep (pkgs : List (String × List String)) (file : String) :
    List (String × List String) :=
  if file = "" then pkgs
  else
    match assignKey file with
    | some key => addToPkg pkgs key file
    | none => pkgs

/-- The grouping loop of `get_changed_packages`: changed files, already
split into lines, grouped by package key. -/
def group_files (changed_files : List String) : List (String × List String) :=
  changed_files.foldl groupStep []

/-- The result-building loop body of `get_changed_packages` for one
grouped entry.  `manifest` models `get_package_json_name`: the declared
name found in the package directory's `package.json`, or `none` (the
source maps every failure to `None`). -/
def mk_package (manifest : String → Option String) (pkg_path : String)
    (files : List String) : PackageInfo :=
  if pkg_path = "root" then
    ⟨"root", "root", files, detect_change_types files⟩
  else
    match manifest pkg_path with
    | some pkg_name =>
      ⟨pkg_name, (pySplit pkg_name '/').getLastD "", files, detect_change_types files⟩
    | none =>
      let seg := (pySplit pkg_path '/').getLastD ""
      ⟨seg, seg, files, detect_change_types files⟩

/-- `get_changed_packages`, given the already-split staged file list. -/
def get_changed_packages (manifest : String → Option String)
    (changed_files : List String) : List PackageInfo :=
  (group_files changed_files).map (fun kv => mk_package manifest kv.1 kv.2)

/-! ## `format_commit_message` (source lines 155-169) -/

/-- The colon branch of `format_commit_message` (lines 157-163): from a
message containing `:`, the declared commit type and the trimmed
description; `none` when the message has no colon. -/
def extract_type_desc (msg : String) : Option (String × String) :=
  match listSplitFirst ':' msg.data with
  | none => none
  | some (tp, rest) =>
    let type_part : String := ⟨tp⟩
    let desc := pyStrip ⟨rest⟩
    let commit_type :=
      if pyContains type_part "(" && pyContains type_part ")" then
        String.mk (((listSplitFirst '(' tp).map Prod.fst).getD tp)
      else type_part
    some (commit_type, desc)

/-- `format_commit_message(original_msg, package, commit_type)`.  The
`commit_type = none` case together with the `t = ""` test mirrors
Python's falsy check `if not commit_type`; `types.headD ""` models
`next(iter(package["types"]))` (the `""` default is unreachable since
`detect_change_types` never returns an empty set). -/
def format_commit_message (original_msg : String) (package : PackageInfo)
    (commit_type : Option String) : String :=
  match extract_type_desc original_msg with
  | some (ct, desc) => ct ++ "(" ++ package.scope ++ "): " ++ desc
  | none =>
    let ct :=
      match commit_type with
      | some t => if t = "" then package.types.headD "" else t
      | none => package.types.headD ""
    ct ++ "(" ++ package.scope ++ "): " ++ original_msg

/-! ## `main`: early collection phase (lines 288-301, 347-349) -/

/-- The outcome of the version-control query for the staged file list:
`check_output` either returns the raw output or raises. -/
inductive GitQuery where
  | fails
  | succeeds (output : String)
deriving DecidableEq, Repr

/-- What the first phase of `main` does with the process: exit 0 early,
reach the top-level `except` handler and exit 1, or continue with the
collected packages. -/
inductive CollectOutcome where
  | exitSuccess
  | exitFailure
  | proceed (packages : List PackageInfo)
deriving DecidableEq, Repr

/-- The phase of `main` from reading the original message to the
empty-package early exit: merge commits exit 0; a failing git query
raises, is caught only by the top-level handler, and exits 1; an empty
package list exits 0; otherwise the run proceeds. -/
def main_collect (manifest : String → Option String) (original_msg : String)
    (git : GitQuery) : CollectOutcome :=
  if pyStartsWith original_msg "Merge" then .exitSuccess
  else
    match git with
    | .fails => .exitFailure
    | .succeeds out =>
      let changed_files := pySplit (pyStrip out) '\n'
      let packages := get_changed_packages manifest changed_files
      if packages = [] then .exitSuccess else .proceed packages

/-! ## `get_ai_suggestion` (lines 222-266) -/

/-- The observable outcome of the external completion call as consumed by
`get_ai_suggestion`: either some exception was raised inside the `try`
block (transport, authentication, JSON parsing), or a JSON object was
parsed, whose `suggestions` key is absent (`none`) or holds a list of
records. -/
inductive AICallResult where
  | exn
  | jsonObj (suggestionsField : Option (List RawSuggestion))
deriving DecidableEq, Repr

/-- `get_ai_suggestion`: `None` without the optional dependency or on any
exception; otherwise `result.get("suggestions", [])`. -/
def get_ai_suggestion (hasOpenAI : Bool) (call : AICallResult) :
    Option (List RawSuggestion) :=
  if hasOpenAI then
    match call with
    | .exn => none
    | .jsonObj sf => some (sf.getD [])
  else none

/-! ## `display_suggestions` (lines 268-286) -/

/-- The subscripts performed while printing one suggestion, in source
order (`message`, `type`, `scope`, `explanation`); a missing key raises
`KeyError`. -/
def print_one (s : RawSuggestion) : Except String Unit :=
  match s.message with
  | none => .error "KeyError"
  | some _ =>
    match s.sugType with
    | none => .error "KeyError"
    | some _ =>
      match s.scope with
      | none => .error "KeyError"
      | some _ =>
        match s.explanation with
        | none => .error "KeyError"
        | some _ => .ok ()

/-- The printing loop at the top of `display_suggestions`. -/
def print_phase : List RawSuggestion → Except String Unit
  | [] => .ok ()
  | s :: rest =>
    match print_one s with
    | .error e => .error e
    | .ok _ => print_phase rest

/-- `int(choice) - 1` for the inputs the source accepts: the membership
test `choice in ("1", "2", "3")` is hard-coded, so only these three
strings reach the subscript. -/
def choice_index (choice : String) : Option Nat :=
  if choice = "1" then some 0
  else if choice = "2" then some 1
  else if choice = "3" then some 2
  else none

/-- The result of the selection loop: a chosen message, an explicit skip,
or `pending` when the modelled input stream ran out (the real loop would
still be blocked waiting for input). -/
inductive SelOutcome where
  | skip
  | selected (msg : String)
  | pending
deriving DecidableEq, Repr

/-- The `while True` loop of `display_suggestions`, driven by the stream
of user input lines: empty (stripped) input skips; `"1"`/`"2"`/`"3"`
subscript the list (raising `IndexError` past its end, and `KeyError` if
the record has no `message`); anything else re-prompts. -/
def selection_loop (suggestions : List RawSuggestion) :
    List String → Except String SelOutcome
  | [] => .ok .pending
  | input :: rest =>
    let choice := pyStrip input
    if choice = "" then .ok .skip
    else
      match choice_index choice with
      | some i =>
        match suggestions.get? i with
        | some s =>
          match s.message with
          | some m => .ok (.selected m)
          | none => .error "KeyError"
        | none => .error "IndexError"
      | none => selection_loop suggestions rest

/-- `display_suggestions`: print every suggestion, then run the selection
loop. -/
def display_suggestions (suggestions : List RawSuggestion)
    (inputs : List String) : Except String SelOutcome :=
  match print_phase suggestions with
  | .error e => .error e
  | .ok _ => selection_loop suggestions inputs

/-! ## The AI branch of `main` (lines 316-327) -/

/-- How the AI branch of `main` ends: fall through to deterministic
formatting, return with a chosen message written, propagate an exception
to the top-level handler, or block forever on input. -/
inductive AIFlowResult where
  | fallback
  | chosen (m : String)
  | exn (e : String)
  | blocked
deriving DecidableEq, Repr

/-- The AI branch of `main` after the user accepted AI suggestions:
`get_ai_suggestion` followed by the truthiness test `if suggestions:` and
`display_suggestions`; `None`, the empty list, and a user skip all fall
through to the fallback formatter, and any exception raised while
displaying propagates. -/
def ai_flow (hasOpenAI : Bool) (call : AICallResult) (inputs : List String) :
    AIFlowResult :=
  match get_ai_suggestion hasOpenAI call with
  | none => .fallback
  | some [] => .fallback
  | some (s :: rest) =>
    match display_suggestions (s :: rest) inputs with
    | .error e => .exn e
    | .ok .skip => .fallback
    | .ok (.selected m) => .chosen m
    | .ok .pending => .blocked

/-! ## The fallback formatting step of `main` (lines 330-338) -/

/-- The deterministic fallback of `main`: format with the first package
and `main_type = next(iter(main_pkg["types"]))`, appending the affected
package list when more than one package changed.  The empty-list case is
unreachable (`main` exits earlier). -/
def fallback_message (original_msg : String) (packages : List PackageInfo) :
    String :=
  match packages with
  | [] => ""
  | main_pkg :: rest =>
    let main_type := main_pkg.types.headD ""
    let base := format_commit_message original_msg main_pkg (some main_type)
    if rest.isEmpty then base
    else
      base ++ "\n\nAffected packages:\n"
        ++ pyJoin "\n" (packages.map (fun p => "- " ++ p.name))

/-! ## Helper lemmas about the string primitives -/

theorem listIsPre_exists {p l : List Char} (h : listIsPre p l = true) :
    ∃ t, l = p ++ t := by
  induction p generalizing l with
  | nil => exact ⟨l, rfl⟩
  | cons a as ih =>
    cases l with
    | nil => simp [listIsPre] at h
    | cons b bs =>
      simp only [listIsPre, Bool.and_eq_true, decide_eq_true_eq] at h
      obtain ⟨rfl, h2⟩ := h
      obtain ⟨t, rfl⟩ := ih h2
      exact ⟨t, rfl⟩

theorem listIsPre_append (p t : List Char) : listIsPre p (p ++ t) = true := by
  induction p with
  | nil => simp [listIsPre]
  | cons a as ih => simp [listIsPre, ih]

/-- Python's single-character `c in s` is list membership. -/
theorem listContainsSub_single (c : Char) (l : List Char) :
    listContainsSub [c] l = true ↔ c ∈ l := by
  induction l with
  | nil => simp [listContainsSub, listIsPre]
  | cons a rest ih =>
    simp only [listContainsSub, listIsPre, Bool.or_eq_true, Bool.and_eq_true,
      decide_eq_true_eq, List.mem_cons, ih]
    constructor
    · rintro (⟨rfl, -⟩ | h)
      · exact Or.inl rfl
      · exact Or.inr h
    · rintro (rfl | h)
      · exact Or.inl ⟨rfl, trivial⟩
      · exact Or.inr h

theorem listSplitOnChar_ne_nil (c : Char) (l : List Char) :
    listSplitOnChar c l ≠ [] := by
  cases l with
  | nil => simp [listSplitOnChar]
  | cons a rest =>
    simp only [listSplitOnChar]
    split
    · simp
    · split <;> simp

theorem listSplitOnChar_append (c : Char) (l1 l2 : List Char) (h : c ∉ l1) :
    listSplitOnChar c (l1 ++ c :: l2) = l1 :: listSplitOnChar c l2 := by
  induction l1 with
  | nil => simp [listSplitOnChar]
  | cons a as ih =>
    have ha : ¬(a = c) := fun hac => h (hac ▸ List.mem_cons_self a as)
    have h' : c ∉ as := fun hm => h (List.mem_cons_of_mem a hm)
    have e : listSplitOnChar c (List.append as (c :: l2)) = as :: listSplitOnChar c l2 :=
      ih h'
    simp only [List.cons_append, listSplitOnChar, if_neg ha, e]

theorem listSplitFirst_append (c : Char) (l1 l2 : List Char) (h : c ∉ l1) :
    listSplitFirst c (l1 ++ c :: l2) = some (l1, l2) := by
  induction l1 with
  | nil => simp [listSplitFirst]
  | cons a as ih =>
    have ha : ¬(a = c) := fun hac => h (hac ▸ List.mem_cons_self a as)
    have h' : c ∉ as := fun hm => h (List.mem_cons_of_mem a hm)
    have e : listSplitFirst c (List.append as (c :: l2)) = some (as, l2) := ih h'
    simp only [List.cons_append, listSplitFirst, if_neg ha, e]

theorem listStrip_space_cons (l : List Char) : listStrip (' ' :: l) = listStrip l := by
  simp [listStrip, List.dropWhile_cons, isSpaceChar]

theorem string_data_append (a b : String) : (a ++ b).data = a.data ++ b.data := by
  cases a; cases b; rfl

theorem string_mk_data (s : String) : String.mk s.data = s := rfl

/-! ## C4, C5, C10: the change-type classifier -/

theorem classify_file_ne_feat {f t : String} (h : classify_file f = some t) :
    t ≠ "feat" := by
  simp only [classify_file] at h
  split_ifs at h <;> first
    | exact Option.noConfusion h
    | (injection h with h2; subst h2; decide)

theorem addLabel_mem {x : String} {acc : List String} {t : String} :
    x ∈ addLabel acc t ↔ x ∈ acc ∨ x = t := by
  unfold addLabel
  split
  · rename_i hmem
    constructor
    · exact Or.inl
    · rintro (h | rfl)
      · exact h
      · exact hmem
  · simp [List.mem_append]

theorem feat_not_mem_foldl (files : List String) (acc : List String)
    (h : "feat" ∉ acc) :
    "feat" ∉ files.foldl
      (fun acc f =>
        match classify_file f with
        | some t => addLabel acc t
        | none => acc)
      acc := by
  induction files generalizing acc with
  | nil => exact h
  | cons f rest ih =>
    simp only [List.foldl_cons]
    apply ih
    cases hc : classify_file f with
    | none => exact h
    | some t =>
      intro hmem
      rcases addLabel_mem.mp hmem with h1 | h1
      · exact h h1
      · exact classify_file_ne_feat hc h1.symm

theorem feat_not_mem_collectTypes (files : List String) :
    "feat" ∉ collectTypes files :=
  feat_not_mem_foldl files [] (by simp)

theorem collectTypes_eq_nil (files : List String)
    (h : ∀ f ∈ files, classify_file f = none) : collectTypes files = [] := by
  unfold collectTypes
  induction files with
  | nil => rfl
  | cons f rest ih =>
    simp only [List.foldl_cons, h f (List.mem_cons_self f rest)]
    exact ih (fun g hg => h g (List.mem_cons_of_mem f hg))

/-- C4: a path matching both a test marker (`.test.`, `.spec.`, `/tests/`)
and a fix keyword (`fix`, `bug`, `patch`) is classified `test`, never
`fix`: the per-file first-match order puts test detection before
fix-keyword detection. -/
theorem C4_test_priority_over_fix (f : String)
    (htest : matchesAny (pyLower f) [".test.", ".spec.", "/tests/"] = true)
    (_hfix : matchesAny (pyLower f) ["fix", "bug", "patch"] = true) :
    classify_file f = some "test" ∧ classify_file f ≠ some "fix" ∧
      detect_change_types [f] = ["test"] := by
  have h1 : classify_file f = some "test" := by
    unfold classify_file
    simp [htest]
  refine ⟨h1, by simp [h1], ?_⟩
  unfold detect_change_types collectTypes
  simp [h1, addLabel]

theorem C4_witness :
    (matchesAny (pyLower "src/feature/fix.test.ts") [".test.", ".spec.", "/tests/"] = true ∧
      matchesAny (pyLower "src/feature/fix.test.ts") ["fix", "bug", "patch"] = true) ∧
    (classify_file "src/feature/fix.test.ts" = some "test" ∧
      classify_file "src/feature/fix.test.ts" ≠ some "fix" ∧
      detect_change_types ["src/feature/fix.test.ts"] = ["test"]) :=
  ⟨⟨by decide, by decide⟩,
    C4_test_priority_over_fix "src/feature/fix.test.ts" (by decide) (by decide)⟩

/-- C5: the classifier always returns a non-empty label set, and when no
file matches any category the result is exactly the singleton `feat`. -/
theorem C5_nonempty_and_feat_default (files : List String) :
    detect_change_types files ≠ [] ∧
      ((∀ f ∈ files, classify_file f = none) →
        detect_change_types files = ["feat"]) := by
  constructor
  · simp only [detect_change_types]
    split
    · simp
    · assumption
  · intro h
    simp only [detect_change_types]
    simp [collectTypes_eq_nil files h]

theorem C5_witness :
    detect_change_types ["src/index"] ≠ [] ∧
      ((∀ f ∈ ["src/index"], classify_file f = none) ∧
        detect_change_types ["src/index"] = ["feat"]) :=
  ⟨(C5_nonempty_and_feat_default ["src/index"]).1,
    by decide,
    (C5_nonempty_and_feat_default ["src/index"]).2 (by decide)⟩

/-- C10: `feat` only ever appears as the singleton result: whenever `feat`
is among the returned labels, the whole result is exactly `["feat"]`
(`feat` never co-occurs with another label). -/
theorem C10_feat_only_singleton (files : List String)
    (h : "feat" ∈ detect_change_types files) :
    detect_change_types files = ["feat"] := by
  simp only [detect_change_types] at h ⊢
  split at h
  · rename_i hnil
    simp [hnil]
  · exact absurd h (feat_not_mem_collectTypes files)

theorem C10_witness :
    "feat" ∈ detect_change_types ["src/index"] ∧
      detect_change_types ["src/index"] = ["feat"] :=
  ⟨by decide, C10_feat_only_singleton ["src/index"] (by decide)⟩

/-! ## C7: the colon branch of the formatter -/

/-- Written from the spec's words for §4.3 (claim C7), independently of
the embedded source: when the original message contains a `:` separator,
the text before it is the existing annotation; if that text contains a
parenthesized scope the type is the text before the parenthesis,
otherwise the whole text; the text after `:` is trimmed and becomes the
description; the output is `type(scope): description` with the package's
scope.  The caller-supplied default type does not occur. -/
def spec_format_colon (original_msg : String) (scope : String) : String :=
  match listSplitFirst ':' original_msg.data with
  | none => ""
  | some (before, after) =>
    let declared : String := ⟨before⟩
    let ty :=
      if pyContains declared "(" && pyContains declared ")" then
        String.mk (((listSplitFirst '(' before).map Prod.fst).getD before)
      else declared
    ty ++ "(" ++ scope ++ "): " ++ pyStrip ⟨after⟩

theorem listSplitFirst_isSome_of_mem {c : Char} {l : List Char} (h : c ∈ l) :
    ∃ p, listSplitFirst c l = some p := by
  induction l with
  | nil => exact absurd h (List.not_mem_nil c)
  | cons a rest ih =>
    by_cases hac : a = c
    · exact ⟨([], rest), by simp [listSplitFirst, hac]⟩
    · have hm : c ∈ rest := by
        rcases List.mem_cons.mp h with h1 | h1
        · exact absurd h1.symm hac
        · exact h1
      obtain ⟨⟨pl, pr⟩, hp⟩ := ih hm
      exact ⟨(a :: pl, pr), by simp [listSplitFirst, hac, hp]⟩

/-- C7: for every message containing `:`, the formatter's output is the
spec-described one — the type from the message's own annotation, the
trimmed text after the colon, the package's scope — and the
caller-supplied default type (quantified here) is ignored. -/
theorem C7_colon_branch (msg : String) (pkg : PackageInfo) (dt : Option String)
    (h : pyContains msg ":" = true) :
    format_commit_message msg pkg dt = spec_format_colon msg pkg.scope := by
  have hc : (':' : Char) ∈ msg.data := by
    have h' : listContainsSub [':'] msg.data = true := h
    exact (listContainsSub_single ':' msg.data).mp h'
  obtain ⟨⟨tp, rest⟩, hp⟩ := listSplitFirst_isSome_of_mem hc
  simp only [format_commit_message, extract_type_desc, spec_format_colon, hp]

theorem C7_witness :
    pyContains "feat: add endpoint" ":" = true ∧
      format_commit_message "feat: add endpoint" ⟨"api", "api", [], ["feat"]⟩
          (some "chore") =
        spec_format_colon "feat: add endpoint" "api" :=
  ⟨by decide,
    C7_colon_branch "feat: add endpoint" ⟨"api", "api", [], ["feat"]⟩
      (some "chore") (by decide)⟩

/-! ## C8: the multi-package fallback composition -/

/-- C8: with more than one package, the fallback message is the formatted
header for the first package, a blank line, `Affected packages:`, and one
`- name` line per package in collector order; at the spec's concrete
instance the result is exactly the expected string. -/
theorem C8_multi_package_fallback :
    (∀ (msg : String) (p1 p2 : PackageInfo) (rest : List PackageInfo),
      fallback_message msg (p1 :: p2 :: rest) =
        format_commit_message msg p1 (some (p1.types.headD "")) ++
          "\n\nAffected packages:\n" ++
          pyJoin "\n" ((p1 :: p2 :: rest).map (fun p => "- " ++ p.name))) ∧
    fallback_message "improve build"
        [⟨"core", "core", [], ["chore"]⟩, ⟨"ui", "ui", [], ["feat"]⟩] =
      "chore(core): improve build\n\nAffected packages:\n- core\n- ui" := by
  constructor
  · intro msg p1 p2 rest
    simp [fallback_message]
  · rfl

/-! ## C1: failure of the staged-file-list query -/

/-- C1 as amended: a *failing* staged-file-list query is not absorbed —
the exception reaches only the top-level handler and the process exits
non-zero — while a *successful but empty* query result leads to the
early, successful exit. -/
theorem C1_amended (manifest : String → Option String) (msg : String)
    (h : pyStartsWith msg "Merge" = false) :
    main_collect manifest msg .fails = .exitFailure ∧
      main_collect manifest msg (.succeeds "") = .exitSuccess := by
  constructor
  · simp [main_collect, h]
  · simp [main_collect, h]
    rfl

theorem C1_witness :
    pyStartsWith "update deps" "Merge" = false ∧
      main_collect (fun _ => none) "update deps" .fails = .exitFailure ∧
      main_collect (fun _ => none) "update deps" (.succeeds "") = .exitSuccess :=
  ⟨by decide,
    (C1_amended (fun _ => none) "update deps" (by decide)).1,
    (C1_amended (fun _ => none) "update deps" (by decide)).2⟩

/-- C1 counterexample to the claim as stated: when the query fails, the
run does not exit successfully — it reaches the top-level handler and
exits with a failure status, unlike the genuinely-empty case. -/
theorem C1_counterexample :
    main_collect (fun _ => none) "update deps" .fails =
        CollectOutcome.exitFailure ∧
      CollectOutcome.exitFailure ≠ CollectOutcome.exitSuccess :=
  ⟨rfl, by decide⟩

/-! ## C2: the suggestion selector -/

theorem choice_index_ne_empty {c : String} {i : Nat}
    (h : choice_index c = some i) : c ≠ "" := by
  intro he
  subst he
  simp [choice_index] at h

instance {ε α : Type} [DecidableEq ε] [DecidableEq α] :
    DecidableEq (Except ε α) := fun x y =>
  match x, y with
  | .ok a, .ok b =>
    if h : a = b then .isTrue (by rw [h])
    else .isFalse (by intro hc; injection hc; contradiction)
  | .error a, .error b =>
    if h : a = b then .isTrue (by rw [h])
    else .isFalse (by intro hc; injection hc; contradiction)
  | .ok _, .error _ => .isFalse (by intro hc; exact Except.noConfusion hc)
  | .error _, .ok _ => .isFalse (by intro hc; exact Except.noConfusion hc)

/-- C2 as amended: once the suggestions print without error, empty
(stripped) input skips; an input among `"1"`, `"2"`, `"3"` whose index
falls inside the sequence returns that suggestion's `message`; such an
input past the end of the sequence raises `IndexError` (which escapes the
loop); and every other input re-prompts.  In particular an index ≥ 4,
though valid for a longer sequence, re-prompts instead of selecting. -/
theorem C2_amended (sgs : List RawSuggestion) (input : String)
    (rest : List String) (hprint : print_phase sgs = .ok ()) :
    (pyStrip input = "" → display_suggestions sgs (input :: rest) = .ok .skip) ∧
    (∀ i s m, choice_index (pyStrip input) = some i → sgs.get? i = some s →
      s.message = some m →
      display_suggestions sgs (input :: rest) = .ok (.selected m)) ∧
    (∀ i, choice_index (pyStrip input) = some i → sgs.get? i = none →
      display_suggestions sgs (input :: rest) = .error "IndexError") ∧
    (pyStrip input ≠ "" → choice_index (pyStrip input) = none →
      display_suggestions sgs (input :: rest) = display_suggestions sgs rest) := by
  refine ⟨?_, ?_, ?_, ?_⟩
  · intro he
    simp [display_suggestions, hprint, selection_loop, he]
  · intro i s m hi hs hm
    simp only [List.get?_eq_getElem?] at hs
    simp [display_suggestions, hprint, selection_loop, choice_index_ne_empty hi,
      hi, hs, hm]
  · intro i hi hs
    simp only [List.get?_eq_getElem?] at hs
    simp [display_suggestions, hprint, selection_loop, choice_index_ne_empty hi,
      hi, hs]
  · intro hne hi
    simp [display_suggestions, hprint, selection_loop, hne, hi]

/-- The spec's own selector example: three well-formed suggestions. -/
def c2Three : List RawSuggestion :=
  [⟨some "m1", some "e1", some "feat", some "core", some "d1"⟩,
   ⟨some "m2", some "e2", some "fix", some "ui", some "d2"⟩,
   ⟨some "m3", some "e3", some "docs", some "root", some "d3"⟩]

theorem C2_witness :
    print_phase c2Three = .ok () ∧
      display_suggestions c2Three ["2"] = .ok (.selected "m2") ∧
      display_suggestions c2Three [""] = .ok .skip ∧
      display_suggestions c2Three ["9", "2"] = .ok (.selected "m2") :=
  ⟨by decide,
    (C2_amended c2Three "2" [] (by decide)).2.1 1
      ⟨some "m2", some "e2", some "fix", some "ui", some "d2"⟩ "m2"
      (by decide) (by decide) (by decide),
    (C2_amended c2Three "" [] (by decide)).1 (by decide),
    by
      rw [(C2_amended c2Three "9" ["2"] (by decide)).2.2.2 (by decide) (by decide)]
      exact (C2_amended c2Three "2" [] (by decide)).2.1 1
        ⟨some "m2", some "e2", some "fix", some "ui", some "d2"⟩ "m2"
        (by decide) (by decide) (by decide)⟩

/-- Two well-formed suggestions: input `"3"` passes the hard-coded
membership test but subscripts past the end of the list. -/
def c2Two : List RawSuggestion :=
  [⟨some "m1", some "e1", some "feat", some "core", some "d1"⟩,
   ⟨some "m2", some "e2", some "fix", some "ui", some "d2"⟩]

/-- Four well-formed suggestions: `"4"` is a valid 1-based index of the
sequence but is rejected by the hard-coded `("1", "2", "3")` test. -/
def c2Four : List RawSuggestion :=
  [⟨some "m1", some "e1", some "feat", some "core", some "d1"⟩,
   ⟨some "m2", some "e2", some "fix", some "ui", some "d2"⟩,
   ⟨some "m3", some "e3", some "docs", some "root", some "d3"⟩,
   ⟨some "m4", some "e4", some "test", some "api", some "d4"⟩]

/-- C2 counterexample to the claim as stated: with two suggestions the
input `"3"` raises `IndexError` out of the loop instead of re-prompting,
and with four suggestions the valid 1-based index `"4"` does not return
the fourth suggestion's message (the loop just re-prompts and is left
waiting). -/
theorem C2_counterexample :
    display_suggestions c2Two ["3"] = .error "IndexError" ∧
      display_suggestions c2Four ["4"] = .ok .pending ∧
      display_suggestions c2Four ["4"] ≠ .ok (.selected "m4") := by
  refine ⟨by decide, by decide, by decide⟩

/-! ## C3: failure handling of the AI suggestion step -/

/-- C3 as amended: a disabled AI dependency, any exception during the
external call, a missing `suggestions` key, and an empty suggestions list
all uniformly yield "no suggestions" and the deterministic fallback path;
but a *present, non-empty* `suggestions` list is returned as-is even when
its records are malformed, and a record without a `message` key makes the
display step raise a `KeyError` that reaches the top-level handler. -/
theorem C3_amended (call : AICallResult) (inputs : List String) :
    ai_flow false call inputs = .fallback ∧
    ai_flow true .exn inputs = .fallback ∧
    ai_flow true (.jsonObj none) inputs = .fallback ∧
    ai_flow true (.jsonObj (some [])) inputs = .fallback ∧
    (∀ s rest, s.message = none →
      ai_flow true (.jsonObj (some (s :: rest))) inputs = .exn "KeyError") := by
  refine ⟨rfl, rfl, rfl, rfl, ?_⟩
  intro s rest h
  simp [ai_flow, get_ai_suggestion, display_suggestions, print_phase, print_one, h]

/-- A suggestion record with every field except `message`. -/
def c3Bad : RawSuggestion := ⟨none, some "why", some "feat", some "core", some "adds"⟩

theorem C3_witness :
    ai_flow true .exn ["2"] = .fallback ∧
      c3Bad.message = none ∧
      ai_flow true (.jsonObj (some [c3Bad])) ["2"] = .exn "KeyError" :=
  ⟨(C3_amended .exn ["2"]).2.1, rfl,
    (C3_amended (.jsonObj (some [c3Bad])) ["2"]).2.2.2.2 c3Bad [] rfl⟩

/-- C3 counterexample to the claim as stated: a malformed response whose
`suggestions` records miss the `message` field does not yield "no
suggestions" — the run leaves the fallback path and a `KeyError` is
surfaced to the top-level handler. -/
theorem C3_counterexample :
    ai_flow true (.jsonObj (some [c3Bad])) [] = .exn "KeyError" ∧
      ai_flow true (.jsonObj (some [c3Bad])) [] ≠ .fallback := by
  refine ⟨by decide, by decide⟩

/-! ## C9: formatter round-trip -/

theorem not_mem_of_contains_false {c : Char} {l : List Char}
    (h : listContainsSub [c] l = false) : c ∉ l := fun hm => by
  rw [(listContainsSub_single c l).mpr hm] at h
  exact Bool.noConfusion h

/-- Re-extracting from a well-behaved `type(scope): description` string
recovers the type and the description. -/
theorem extract_formatted (ty sc d : String)
    (hty : ':' ∉ ty.data) (htyp : '(' ∉ ty.data) (hsc : ':' ∉ sc.data)
    (hd : listStrip d.data = d.data) :
    extract_type_desc (ty ++ "(" ++ sc ++ "): " ++ d) = some (ty, d) := by
  have hdata : (ty ++ "(" ++ sc ++ "): " ++ d).data =
      (ty.data ++ '(' :: (sc.data ++ [')'])) ++ ':' :: (' ' :: d.data) := by
    simp only [string_data_append]
    show (((ty.data ++ ['(']) ++ sc.data) ++ [')', ':', ' ']) ++ d.data = _
    simp [List.append_assoc]
  have hnotin : ':' ∉ (ty.data ++ '(' :: (sc.data ++ [')'])) := by
    intro hm
    rcases List.mem_append.mp hm with h1 | h1
    · exact hty h1
    · rcases List.mem_cons.mp h1 with h2 | h2
      · exact absurd h2 (by decide)
      · rcases List.mem_append.mp h2 with h3 | h3
        · exact hsc h3
        · exact absurd h3 (by decide)
  have hsplit : listSplitFirst ':' (ty ++ "(" ++ sc ++ "): " ++ d).data =
      some (ty.data ++ '(' :: (sc.data ++ [')']), ' ' :: d.data) := by
    rw [hdata]
    exact listSplitFirst_append ':' _ _ hnotin
  have h1 : pyContains (String.mk (ty.data ++ '(' :: (sc.data ++ [')']))) "(" = true :=
    (listContainsSub_single '(' _).mpr
      (List.mem_append.mpr (Or.inr (List.mem_cons_self _ _)))
  have h2 : pyContains (String.mk (ty.data ++ '(' :: (sc.data ++ [')']))) ")" = true :=
    (listContainsSub_single ')' _).mpr
      (List.mem_append.mpr (Or.inr (List.mem_cons_of_mem _
        (List.mem_append.mpr (Or.inr (List.mem_cons_self _ _))))))
  have h3 : listSplitFirst '(' (ty.data ++ '(' :: (sc.data ++ [')'])) =
      some (ty.data, sc.data ++ [')']) := listSplitFirst_append '(' _ _ htyp
  have h4 : pyStrip (String.mk (' ' :: d.data)) = d := by
    show String.mk (listStrip (' ' :: d.data)) = d
    rw [listStrip_space_cons, hd]
  simp only [extract_type_desc, hsplit, h1, h2, Bool.and_self, h3, h4]
  simp [string_mk_data]

theorem format_of_extract (msg : String) (pkg : PackageInfo) (dt : Option String)
    {ty d : String} (h : extract_type_desc msg = some (ty, d)) :
    format_commit_message msg pkg dt = ty ++ "(" ++ pkg.scope ++ "): " ++ d := by
  simp only [format_commit_message, h]

/-- C9 as amended: the round-trip holds once, beyond the claim's stated
side conditions (type without `:`, trimmed description), the type
contains no `(` and neither the message's scope nor the formatting
package's scope contains `:`. -/
theorem C9_amended (ty sc d : String) (pkg : PackageInfo) (dt : Option String)
    (hty : pyContains ty ":" = false) (htyp : pyContains ty "(" = false)
    (hsc : pyContains sc ":" = false) (hpsc : pyContains pkg.scope ":" = false)
    (hd : pyStrip d = d) :
    extract_type_desc
        (format_commit_message (ty ++ "(" ++ sc ++ "): " ++ d) pkg dt) =
      some (ty, d) := by
  have hty0 : listContainsSub [':'] ty.data = false := hty
  have htyp0 : listContainsSub ['('] ty.data = false := htyp
  have hsc0 : listContainsSub [':'] sc.data = false := hsc
  have hpsc0 : listContainsSub [':'] pkg.scope.data = false := hpsc
  have hty' : ':' ∉ ty.data := not_mem_of_contains_false hty0
  have htyp' : '(' ∉ ty.data := not_mem_of_contains_false htyp0
  have hsc' : ':' ∉ sc.data := not_mem_of_contains_false hsc0
  have hpsc' : ':' ∉ pkg.scope.data := not_mem_of_contains_false hpsc0
  have hd' : listStrip d.data = d.data := congrArg String.data hd
  rw [format_of_extract _ pkg dt (extract_formatted ty sc d hty' htyp' hsc' hd')]
  exact extract_formatted ty pkg.scope d hty' htyp' hpsc' hd'

theorem C9_witness :
    (pyContains "feat" ":" = false ∧ pyContains "feat" "(" = false ∧
      pyContains "core" ":" = false ∧ pyContains "auth" ":" = false ∧
      pyStrip "update" = "update") ∧
      extract_type_desc
          (format_commit_message ("feat" ++ "(" ++ "core" ++ "): " ++ "update")
            ⟨"auth", "auth", [], ["fix"]⟩ none) =
        some ("feat", "update") :=
  ⟨⟨by decide, by decide, by decide, by decide, by decide⟩,
    C9_amended "feat" "core" "update" ⟨"auth", "auth", [], ["fix"]⟩ none
      (by decide) (by decide) (by decide) (by decide) (by decide)⟩

/-- A package whose scope contains a colon. -/
def c9Pkg : PackageInfo := ⟨"auth", "a:b", [], ["feat"]⟩

/-- C9 counterexample to the claim as stated: the message
`"feat(core): d"` satisfies the claim's stated side conditions (type
`feat` has no colon, description `d` is trimmed), yet formatting it for a
package whose scope is `a:b` and re-extracting yields type `feat(a` and
description `b): d` — not the original type and description. -/
theorem C9_counterexample :
    (pyContains "feat" ":" = false ∧ pyStrip "d" = "d") ∧
      format_commit_message "feat(core): d" c9Pkg (some "chore") = "feat(a:b): d" ∧
      extract_type_desc
          (format_commit_message "feat(core): d" c9Pkg (some "chore")) =
        some ("feat(a", "b): d") ∧
      (("feat(a" : String), ("b): d" : String)) ≠ (("feat" : String), ("d" : String)) :=
  ⟨⟨by decide, by decide⟩, by decide, by decide, by decide⟩

/-! ## C6: the collector's partition of the staged file list -/

/-- The files of package key `k` in the grouped association list. -/
def lookupPkg (pkgs : List (String × List String)) (k : String) :
    Option (List String) :=
  (pkgs.find? (fun kv => kv.1 == k)).map Prod.snd

/-- The non-empty files of `files` that `assignKey` sends to key `k`, in
order. -/
def filesFor (k : String) (files : List String) : List String :=
  files.filter (fun f => decide (f ≠ "" ∧ assignKey f = some k))

theorem lookupPkg_nil (k : String) : lookupPkg [] k = none := rfl

theorem lookupPkg_cons (k0 : String) (fs0 : List String)
    (rest : List (String × List String)) (k : String) :
    lookupPkg ((k0, fs0) :: rest) k =
      if k0 = k then some fs0 else lookupPkg rest k := by
  by_cases h : k0 = k
  · unfold lookupPkg
    rw [List.find?_cons_of_pos _ (by simp [h])]
    simp [h]
  · unfold lookupPkg
    rw [List.find?_cons_of_neg _ (by simp [h])]
    simp [h, lookupPkg]

theorem addToPkg_lookup (pkgs : List (String × List String)) (key file k : String) :
    lookupPkg (addToPkg pkgs key file) k =
      if k = key then some ((lookupPkg pkgs key).getD [] ++ [file])
      else lookupPkg pkgs k := by
  induction pkgs with
  | nil =>
    show lookupPkg [(key, [file])] k = _
    rw [lookupPkg_cons]
    by_cases hk : k = key
    · simp [hk, lookupPkg_nil]
    · have hk' : ¬(key = k) := fun h => hk h.symm
      simp [hk, hk', lookupPkg_nil]
  | cons hd rest ih =>
    obtain ⟨k0, fs0⟩ := hd
    by_cases hk0 : k0 = key
    · subst hk0
      simp only [addToPkg, eq_self_iff_true, if_true]
      by_cases hk : k = k0
      · subst hk
        simp [lookupPkg_cons]
      · have hk' : ¬(k0 = k) := fun h => hk h.symm
        simp [lookupPkg_cons, hk, hk']
    · simp only [addToPkg, if_neg hk0]
      by_cases hk : k = k0
      · subst hk
        simp [lookupPkg_cons, hk0]
      · have hk' : ¬(k0 = k) := fun h => hk h.symm
        simp only [lookupPkg_cons, if_neg hk', if_neg hk0, ih]

theorem filesFor_cons_skip (k f : String) (rest : List String)
    (h : ¬(f ≠ "" ∧ assignKey f = some k)) :
    filesFor k (f :: rest) = filesFor k rest := by
  simp [filesFor, List.filter_cons, h]

theorem filesFor_cons_hit (k f : String) (rest : List String)
    (h : f ≠ "" ∧ assignKey f = some k) :
    filesFor k (f :: rest) = f :: filesFor k rest := by
  simp [filesFor, List.filter_cons, h]

theorem groupStep_empty (pkgs : List (String × List String)) :
    groupStep pkgs "" = pkgs := by
  simp [groupStep]

theorem groupStep_none (pkgs : List (String × List String)) (f : String)
    (hf : f ≠ "") (ha : assignKey f = none) : groupStep pkgs f = pkgs := by
  simp [groupStep, hf, ha]

theorem groupStep_some (pkgs : List (String × List String)) (f key : String)
    (hf : f ≠ "") (ha : assignKey f = some key) :
    groupStep pkgs f = addToPkg pkgs key f := by
  simp [groupStep, hf, ha]

theorem foldl_groupStep_some (files : List String)
    (acc : List (String × List String)) (k : String) (fs : List String)
    (h : lookupPkg acc k = some fs) :
    lookupPkg (files.foldl groupStep acc) k = some (fs ++ filesFor k files) := by
  induction files generalizing acc fs with
  | nil => simpa [filesFor] using h
  | cons f rest ih =>
    simp only [List.foldl_cons]
    by_cases hf : f = ""
    · subst hf
      rw [groupStep_empty, ih acc fs h, filesFor_cons_skip k "" rest (by simp)]
    · cases ha : assignKey f with
      | none =>
        rw [groupStep_none acc f hf ha, ih acc fs h,
          filesFor_cons_skip k f rest (by simp [ha])]
      | some key =>
        rw [groupStep_some acc f key hf ha]
        by_cases hkk : k = key
        · subst hkk
          have h2 : lookupPkg (addToPkg acc k f) k = some (fs ++ [f]) := by
            rw [addToPkg_lookup]
            simp [h]
          rw [ih _ _ h2, filesFor_cons_hit k f rest ⟨hf, ha⟩]
          simp
        · have hskip : ¬(f ≠ "" ∧ assignKey f = some k) := by
            rw [ha]
            rintro ⟨-, h3⟩
            exact hkk (Option.some.inj h3).symm
          have h2 : lookupPkg (addToPkg acc key f) k = some fs := by
            rw [addToPkg_lookup, if_neg hkk]
            exact h
          rw [ih _ _ h2, filesFor_cons_skip k f rest hskip]

theorem foldl_groupStep_none (files : List String)
    (acc : List (String × List String)) (k : String)
    (h : lookupPkg acc k = none) :
    lookupPkg (files.foldl groupStep acc) k =
      if filesFor k files = [] then none else some (filesFor k files) := by
  induction files generalizing acc with
  | nil => simp [filesFor, h]
  | cons f rest ih =>
    simp only [List.foldl_cons]
    by_cases hf : f = ""
    · subst hf
      rw [groupStep_empty, ih acc h, filesFor_cons_skip k "" rest (by simp)]
    · cases ha : assignKey f with
      | none =>
        rw [groupStep_none acc f hf ha, ih acc h,
          filesFor_cons_skip k f rest (by simp [ha])]
      | some key =>
        rw [groupStep_some acc f key hf ha]
        by_cases hkk : k = key
        · subst hkk
          have h2 : lookupPkg (addToPkg acc k f) k = some [f] := by
            rw [addToPkg_lookup]
            simp [h]
          rw [foldl_groupStep_some rest _ _ _ h2,
            filesFor_cons_hit k f rest ⟨hf, ha⟩]
          simp
        · have hskip : ¬(f ≠ "" ∧ assignKey f = some k) := by
            rw [ha]
            rintro ⟨-, h3⟩
            exact hkk (Option.some.inj h3).symm
          have h2 : lookupPkg (addToPkg acc key f) k = none := by
            rw [addToPkg_lookup, if_neg hkk]
            exact h
          rw [ih _ h2, filesFor_cons_skip k f rest hskip]

theorem group_files_lookup (files : List String) (k : String) :
    lookupPkg (group_files files) k =
      if filesFor k files = [] then none else some (filesFor k files) :=
  foldl_groupStep_none files [] k rfl

theorem addToPkg_keys (pkgs : List (String × List String)) (key file : String) :
    (addToPkg pkgs key file).map Prod.fst =
      if key ∈ pkgs.map Prod.fst then pkgs.map Prod.fst
      else pkgs.map Prod.fst ++ [key] := by
  induction pkgs with
  | nil => simp [addToPkg]
  | cons hd rest ih =>
    obtain ⟨k0, fs0⟩ := hd
    by_cases h : k0 = key
    · subst h
      simp [addToPkg]
    · have h' : ¬(key = k0) := fun hh => h hh.symm
      simp only [addToPkg, if_neg h, List.map_cons, ih]
      by_cases hmem : key ∈ rest.map Prod.fst
      · simp [hmem, h']
      · simp [hmem, h']

theorem group_files_keys_nodup (files : List String) :
    ((group_files files).map Prod.fst).Nodup := by
  have main : ∀ (fl : List String) (acc : List (String × List String)),
      (acc.map Prod.fst).Nodup → ((fl.foldl groupStep acc).map Prod.fst).Nodup := by
    intro fl
    induction fl with
    | nil => exact fun acc h => h
    | cons f rest ih =>
      intro acc h
      simp only [List.foldl_cons]
      apply ih
      by_cases hf : f = ""
      · subst hf; rwa [groupStep_empty]
      · cases ha : assignKey f with
        | none => rwa [groupStep_none acc f hf ha]
        | some key =>
          rw [groupStep_some acc f key hf ha, addToPkg_keys]
          by_cases hmem : key ∈ acc.map Prod.fst
          · simpa [hmem] using h
          · simp only [if_neg hmem]
            exact h.append (List.nodup_singleton key)
              (fun a ha1 hb => hmem ((List.mem_singleton.mp hb) ▸ ha1))
  exact main files [] (by simp)

theorem mem_of_lookupPkg_eq_some {pkgs : List (String × List String)}
    {k : String} {fs : List String} (h : lookupPkg pkgs k = some fs) :
    (k, fs) ∈ pkgs := by
  unfold lookupPkg at h
  cases hf : pkgs.find? (fun kv => kv.1 == k) with
  | none => rw [hf] at h; cases h
  | some kv =>
    rw [hf] at h
    have h2 : kv.2 = fs := by simpa using h
    have hm := List.mem_of_find?_eq_some hf
    have hp := List.find?_some hf
    have hk : kv.1 = k := by simpa using hp
    obtain ⟨a, b⟩ := kv
    subst hk
    subst h2
    exact hm

theorem lookupPkg_eq_some_of_mem {pkgs : List (String × List String)}
    (hnd : (pkgs.map Prod.fst).Nodup) {k : String} {fs : List String}
    (h : (k, fs) ∈ pkgs) : lookupPkg pkgs k = some fs := by
  induction pkgs with
  | nil => cases h
  | cons hd rest ih =>
    obtain ⟨k0, fs0⟩ := hd
    rw [lookupPkg_cons]
    have hnd2 : (k0 :: rest.map Prod.fst).Nodup := by simpa using hnd
    have hk0ni : k0 ∉ rest.map Prod.fst := (List.nodup_cons.mp hnd2).1
    have hnd' : (rest.map Prod.fst).Nodup := by
      simpa using (List.nodup_cons.mp hnd2).2
    rcases List.mem_cons.mp h with h1 | h1
    · have hk : k = k0 := congrArg Prod.fst h1
      have hfs : fs = fs0 := congrArg Prod.snd h1
      subst hk; subst hfs
      simp
    · by_cases hk : k0 = k
      · subst hk
        exact absurd (List.mem_map.mpr ⟨(k0, fs), h1, rfl⟩) hk0ni
      · rw [if_neg hk]
        exact ih hnd' h1

theorem assignKey_isSome (f : String) : ∃ k, assignKey f = some k := by
  unfold assignKey
  split
  · rename_i hpre
    have hpre' : listIsPre "packages/".data f.data = true := hpre
    obtain ⟨t, ht⟩ := listIsPre_exists hpre'
    have ht' : f.data = "packages".data ++ '/' :: t := by
      rw [ht,
        show ("packages/".data : List Char) = "packages".data ++ ['/'] from by decide,
        List.append_assoc]
      simp
    have hsp : pySplit f '/' =
        "packages" :: (listSplitOnChar '/' t).map String.mk := by
      unfold pySplit
      rw [ht', listSplitOnChar_append '/' "packages".data t (by decide)]
      simp only [List.map_cons]
    cases hsc : listSplitOnChar '/' t with
    | nil => exact absurd hsc (listSplitOnChar_ne_nil '/' t)
    | cons h1 t1 =>
      rw [hsp, hsc]
      exact ⟨"packages/" ++ String.mk h1, rfl⟩
  · exact ⟨"root", rfl⟩

theorem assignKey_packages (f x : String) (hx : '/' ∉ x.data)
    (h : pyStartsWith f ("packages/" ++ x ++ "/") = true) :
    assignKey f = some ("packages/" ++ x) := by
  have h' : listIsPre ("packages/" ++ x ++ "/").data f.data = true := h
  obtain ⟨t, ht⟩ := listIsPre_exists h'
  have ht' : f.data = "packages".data ++ '/' :: (x.data ++ '/' :: t) := by
    rw [ht, string_data_append, string_data_append]
    rw [show ("packages/".data : List Char) = "packages".data ++ ['/'] from by decide,
      show ("/".data : List Char) = ['/'] from by decide]
    simp [List.append_assoc]
  have hpre : pyStartsWith f "packages/" = true := by
    show listIsPre "packages/".data f.data = true
    rw [ht']
    exact listIsPre_append "packages/".data (x.data ++ '/' :: t)
  have hsp : pySplit f '/' =
      "packages" :: String.mk x.data ::
        (listSplitOnChar '/' t).map String.mk := by
    unfold pySplit
    rw [ht', listSplitOnChar_append '/' "packages".data (x.data ++ '/' :: t) (by decide),
      listSplitOnChar_append '/' x.data t hx]
    simp only [List.map_cons]
  simp [assignKey, hpre, hsp]

theorem assignKey_root (f : String) (h : pyStartsWith f "packages/" = false) :
    assignKey f = some "root" := by
  simp [assignKey, h]

/-- C6 as amended: the collector partitions the non-empty staged paths —
the grouped keys are pairwise distinct, a file appears in a group's list
exactly when that group's key is the one assigned to it, and every
non-empty file appears in some group.  A file under `packages/<X>/` (with
`<X>` slash-free) gets key `packages/<X>`, and a file that does *not*
start with `packages/` gets the synthetic `root` key.  (A two-segment
path such as `packages/foo` gets its own key `packages/foo`, not
`root`.) -/
theorem C6_amended (files : List String) :
    ((group_files files).map Prod.fst).Nodup ∧
    (∀ f ∈ files, f ≠ "" →
      ∀ k fs, (k, fs) ∈ group_files files → (f ∈ fs ↔ assignKey f = some k)) ∧
    (∀ f ∈ files, f ≠ "" →
      ∃ k fs, (k, fs) ∈ group_files files ∧ f ∈ fs ∧ assignKey f = some k) ∧
    (∀ f x, '/' ∉ x.data → pyStartsWith f ("packages/" ++ x ++ "/") = true →
      assignKey f = some ("packages/" ++ x)) ∧
    (∀ f, pyStartsWith f "packages/" = false → assignKey f = some "root") := by
  refine ⟨group_files_keys_nodup files, ?_, ?_,
    fun f x hx h => assignKey_packages f x hx h,
    fun f h => assignKey_root f h⟩
  · intro f hf hne k fs hmem
    have hlk : lookupPkg (group_files files) k = some fs :=
      lookupPkg_eq_some_of_mem (group_files_keys_nodup files) hmem
    rw [group_files_lookup] at hlk
    by_cases hemp : filesFor k files = []
    · rw [if_pos hemp] at hlk
      cases hlk
    · rw [if_neg hemp] at hlk
      have hfs : fs = filesFor k files := (Option.some.inj hlk).symm
      subst hfs
      unfold filesFor
      rw [List.mem_filter]
      constructor
      · rintro ⟨-, hp⟩
        exact (of_decide_eq_true hp).2
      · intro hak
        exact ⟨hf, decide_eq_true ⟨hne, hak⟩⟩
  · intro f hf hne
    obtain ⟨k, hk⟩ := assignKey_isSome f
    have hmemf : f ∈ filesFor k files :=
      List.mem_filter.mpr ⟨hf, decide_eq_true ⟨hne, hk⟩⟩
    have hne' : filesFor k files ≠ [] := List.ne_nil_of_mem hmemf
    have hlk := group_files_lookup files k
    rw [if_neg hne'] at hlk
    exact ⟨k, filesFor k files, mem_of_lookupPkg_eq_some hlk, hmemf, hk⟩

/-- A staged list containing a package file, a root file, and a second
file of the same package. -/
def c6Files : List String :=
  ["packages/api/src/index.ts", "README.md", "packages/api/util.ts"]

theorem C6_witness :
    (("README.md" ∈ ["packages/api/src/index.ts", "packages/api/util.ts"]) ↔
      assignKey "README.md" = some "packages/api") ∧
    assignKey "packages/api/src/index.ts" = some ("packages/" ++ "api") ∧
    assignKey "README.md" = some "root" :=
  ⟨(C6_amended c6Files).2.1 "README.md" (by decide) (by decide)
      "packages/api" ["packages/api/src/index.ts", "packages/api/util.ts"]
      (by decide),
    (C6_amended c6Files).2.2.2.1 "packages/api/src/index.ts" "api"
      (by decide) (by decide),
    (C6_amended c6Files).2.2.2.2 "README.md" (by decide)⟩

/-- C6 counterexample to the claim as stated: the staged path
`packages/foo` (a file directly inside `packages/`, with no further
segment) starts with `packages/<X>/` for no segment `<X>`, yet the
collector does not place it in the synthetic `root` package — it becomes
its own package keyed `packages/foo`. -/
theorem C6_counterexample :
    (∀ x : String, '/' ∉ x.data →
      pyStartsWith "packages/foo" ("packages/" ++ x ++ "/") = false) ∧
    group_files ["packages/foo"] = [("packages/foo", ["packages/foo"])] ∧
    ("packages/foo" : String) ≠ "root" := by
  refine ⟨?_, by decide, by decide⟩
  intro x hx
  cases hb : pyStartsWith "packages/foo" ("packages/" ++ x ++ "/") with
  | false => rfl
  | true =>
    exfalso
    have h' : listIsPre ("packages/" ++ x ++ "/").data "packages/foo".data = true := hb
    obtain ⟨t, ht⟩ := listIsPre_exists h'
    have h3 : ("packages/" ++ x ++ "/").data =
        ("packages/".data ++ x.data) ++ "/".data := by
      rw [string_data_append, string_data_append]
    have h4 : List.count '/' "packages/foo".data =
        List.count '/' "packages/".data + List.count '/' x.data +
          List.count '/' "/".data + List.count '/' t := by
      rw [ht, h3, List.count_append, List.count_append, List.count_append]
    rw [List.count_eq_zero.mpr hx] at h4
    rw [show List.count '/' "packages/".data = 1 from by decide] at h4
    rw [show List.count '/' "/".data = 1 from by decide] at h4
    rw [show List.count '/' "packages/foo".data = 1 from by decide] at h4
    omega

end GitGuard
